import Mathlib

/-!
Verification of the HaruChat backend chat proxy core (src/haruServer/main.py).

The development shallowly embeds the provider-adapter / stream-relay code:
JSON values are modelled by an inductive type `Json`; Python dictionary and
truthiness semantics by `jGet` / `pyTruthy`; `json.loads` by the executable
recursive-descent parser `parseJson`; the two streaming relays
(`stream_gemini` / `stream_openai`) by pure functions from the upstream
status, error body and upstream lines to the list of emitted events; the
gateway handlers (`chat` / `chat_stream`) by pure dispatch functions.

Conventions: Python raises `TypeError` when subscripting or `.get`-ing a
non-dict and when indexing a non-list; the embedding makes those operations
total (`jGet` returns `none`, `jIndex0` returns `Json.null`) and the theorems
about chunk decoding carry decidable well-formedness hypotheses
(`geminiShapeWF`, `openaiShapeWF`) restricting to inputs on which the Python
code does not raise, so nothing is asserted about the crashing inputs.
-/

namespace HaruChat

/-- JSON values. Numbers are stored losslessly as `mant * 10 ^ exp10`
(Python floats are never compared by the embedded code, only passed
through, so this decimal representation is adequate). -/
inductive Json where
  | null : Json
  | bool (b : Bool) : Json
  | num (mant : Int) (exp10 : Int) : Json
  | str (s : String) : Json
  | arr (elems : List Json) : Json
  | obj (fields : List (String × Json)) : Json

/-- Python truthiness (`bool(x)`) of a JSON value decoded by `json.loads`:
`None`, `False`, `0`, `""`, `[]`, and the empty dict are falsy. -/
def pyTruthy : Json → Bool
  | .null => false
  | .bool b => b
  | .num m _ => m != 0
  | .str s => !s.isEmpty
  | .arr xs => !xs.isEmpty
  | .obj fs => !fs.isEmpty

/-- Python `d.get(k)` on a dict decoded by `json.loads`: the last binding of
a duplicated key wins, as in a Python dict built by repeated insertion.
Returns `none` on non-dicts (where Python would raise `AttributeError` or
`TypeError`; theorems restrict to well-formed inputs). -/
def jGet : Json → String → Option Json
  | .obj fs, k => fs.foldl (fun acc p => if p.1 = k then some p.2 else acc) none
  | _, _ => none

/-- Python `d.get(k, default)`. -/
def jGetD (j : Json) (k : String) (d : Json) : Json := (jGet j k).getD d

/-- Python `k in d` for a dict. -/
def hasKey (j : Json) (k : String) : Bool := (jGet j k).isSome

/-- Python `x[0]` on a (known non-empty) list value. Returns `Json.null`
outside that case (where Python would raise; theorems restrict to
well-formed inputs). -/
def jIndex0 : Json → Json
  | .arr (x :: _) => x
  | _ => .null

/-- The element list of a JSON array (iteration target of `for part in ...`);
`[]` on non-arrays (where Python iteration would raise or misbehave;
theorems restrict to well-formed inputs). -/
def jList : Json → List Json
  | .arr xs => xs
  | _ => []

/-- The underlying string of a JSON string value, `""` otherwise (the code
only applies this under hypotheses making the value a string). -/
def jStrD : Json → String
  | .str s => s
  | _ => ""

/-- Is this JSON value an object (Python dict)? -/
def jIsObj : Json → Bool
  | .obj _ => true
  | _ => false

/-- Python `s.lower()` (the embedded code only compares ASCII provider
names). -/
def pyLower (s : String) : String := String.mk (s.data.map Char.toLower)

/-- Python `s.startswith(p)`. -/
def pyStartsWith (s p : String) : Bool := p.data.isPrefixOf s.data

/-! ## A model of `json.loads`

An executable recursive-descent JSON parser. `parseJson` returning `none`
models `json.loads` raising `json.JSONDecodeError`. Duplicate object keys
are kept in order in the `Json.obj` field list; `jGet` resolves them
last-wins exactly as Python's dict construction does. -/

/-- Decodings of the single-character JSON string escapes. -/
def decodeEscape : Char → Option Char
  | '"' => some '"'
  | '\\' => some '\\'
  | '/' => some '/'
  | 'b' => some (Char.ofNat 8)
  | 'f' => some (Char.ofNat 12)
  | 'n' => some '\n'
  | 'r' => some '\r'
  | 't' => some '\t'
  | _ => none

/-- Value of a hexadecimal digit. -/
def hexVal : Char → Option Nat := fun c =>
  if '0' ≤ c ∧ c ≤ '9' then some (c.toNat - 48)
  else if 'a' ≤ c ∧ c ≤ 'f' then some (c.toNat - 87)
  else if 'A' ≤ c ∧ c ≤ 'F' then some (c.toNat - 55)
  else none

/-- Parse the body of a JSON string literal (after the opening quote) up to
and including the closing quote, returning the decoded characters and the
remaining input.  Unescaped control characters are rejected, as in JSON. -/
def parseStringBody : List Char → Option (List Char × List Char)
  | [] => none
  | c :: rest =>
    if c = '"' then some ([], rest)
    else if c = '\\' then
      match rest with
      | [] => none
      | e :: rest2 =>
        if e = 'u' then
          match rest2 with
          | h1 :: h2 :: h3 :: h4 :: rest3 =>
            match hexVal h1, hexVal h2, hexVal h3, hexVal h4 with
            | some a, some b, some c2, some d =>
              (parseStringBody rest3).map
                (fun p => (Char.ofNat (((a * 16 + b) * 16 + c2) * 16 + d) :: p.1, p.2))
            | _, _, _, _ => none
          | _ => none
        else
          match decodeEscape e with
          | some d => (parseStringBody rest2).map (fun p => (d :: p.1, p.2))
          | none => none
    else if c.toNat < 32 then none
    else (parseStringBody rest).map (fun p => (c :: p.1, p.2))

/-- Skip JSON whitespace. -/
def skipWs : List Char → List Char
  | [] => []
  | c :: rest => if c = ' ' ∨ c = '\t' ∨ c = '\n' ∨ c = '\r' then skipWs rest else c :: rest

/-- Take a maximal run of decimal digits. -/
def takeDigits : List Char → (List Char × List Char)
  | [] => ([], [])
  | c :: rest =>
    if c.isDigit then
      let p := takeDigits rest
      (c :: p.1, p.2)
    else ([], c :: rest)

/-- Numeric value of a digit run. -/
def digitsToNat (ds : List Char) : Nat := ds.foldl (fun a c => a * 10 + (c.toNat - 48)) 0

/-- Parse an optional fractional part `.digits`. -/
def parseFrac : List Char → Option (List Char × List Char)
  | '.' :: r =>
    match takeDigits r with
    | ([], _) => none
    | (ds, r2) => some (ds, r2)
  | l => some ([], l)

/-- Parse the digits of an exponent after `e`/`E`. -/
def parseExpTail (r : List Char) : Option (Int × List Char) :=
  let p : Bool × List Char :=
    match r with
    | '+' :: t => (false, t)
    | '-' :: t => (true, t)
    | _ => (false, r)
  match takeDigits p.2 with
  | ([], _) => none
  | (ds, r2) => some (if p.1 then -(digitsToNat ds : Int) else (digitsToNat ds : Int), r2)

/-- Parse an optional exponent part. -/
def parseExp : List Char → Option (Int × List Char)
  | 'e' :: r => parseExpTail r
  | 'E' :: r => parseExpTail r
  | l => some (0, l)

/-- Parse a JSON number into `Json.num mantissa exp10`. -/
def parseNumber (l : List Char) : Option (Json × List Char) :=
  let p : Bool × List Char :=
    match l with
    | '-' :: rest => (true, rest)
    | _ => (false, l)
  match takeDigits p.2 with
  | ([], _) => none
  | (ints, l2) =>
    match parseFrac l2 with
    | none => none
    | some (fracs, l3) =>
      match parseExp l3 with
      | none => none
      | some (e, l4) =>
        let mant : Int := (digitsToNat (ints ++ fracs) : Int)
        some (Json.num (if p.1 then -mant else mant) (e - fracs.length), l4)

mutual

/-- Parse one JSON value (fuel-indexed; `parseJson` supplies ample fuel). -/
def parseValue : Nat → List Char → Option (Json × List Char)
  | 0, _ => none
  | f + 1, l =>
    match l with
    | '{' :: rest =>
      match skipWs rest with
      | '}' :: r2 => some (.obj [], r2)
      | r2 => parseMembers f r2 []
    | '[' :: rest =>
      match skipWs rest with
      | ']' :: r2 => some (.arr [], r2)
      | r2 => parseElems f r2 []
    | '"' :: rest => (parseStringBody rest).map (fun p => (Json.str (String.mk p.1), p.2))
    | 't' :: 'r' :: 'u' :: 'e' :: rest => some (.bool true, rest)
    | 'f' :: 'a' :: 'l' :: 's' :: 'e' :: rest => some (.bool false, rest)
    | 'n' :: 'u' :: 'l' :: 'l' :: rest => some (.null, rest)
    | c :: rest =>
      if c = '-' ∨ c.isDigit then parseNumber (c :: rest) else none
    | [] => none

/-- Parse the members of a JSON object after the opening brace (non-empty
object case), accumulating parsed fields in order. -/
def parseMembers : Nat → List Char → List (String × Json) → Option (Json × List Char)
  | 0, _, _ => none
  | f + 1, l, acc =>
    match l with
    | '"' :: rest =>
      match parseStringBody rest with
      | none => none
      | some (k, r2) =>
        match skipWs r2 with
        | ':' :: r3 =>
          match parseValue f (skipWs r3) with
          | none => none
          | some (v, r4) =>
            match skipWs r4 with
            | ',' :: r5 => parseMembers f (skipWs r5) (acc ++ [(String.mk k, v)])
            | '}' :: r5 => some (.obj (acc ++ [(String.mk k, v)]), r5)
            | _ => none
        | _ => none
    | _ => none

/-- Parse the elements of a JSON array after the opening bracket (non-empty
array case). -/
def parseElems : Nat → List Char → List Json → Option (Json × List Char)
  | 0, _, _ => none
  | f + 1, l, acc =>
    match parseValue f l with
    | none => none
    | some (v, r) =>
      match skipWs r with
      | ',' :: r2 => parseElems f (skipWs r2) (acc ++ [v])
      | ']' :: r2 => some (.arr (acc ++ [v]), r2)
      | _ => none

end

/-- The model of `json.loads`: parse a complete JSON document; `none`
models `json.JSONDecodeError`. -/
def parseJson (s : String) : Option Json :=
  match parseValue (s.data.length + 1) (skipWs s.data) with
  | some (v, rest) => if skipWs rest = [] then some v else none
  | none => none

/-! ## The normalized outward event stream

Each `yield` of the source's streaming generators emits one SSE frame; the
frames are in bijection with the constructors below (`errorFrame` spells
out the error frame's literal text, which claim C9 is about). -/

/-- One event of the normalized client-facing stream, tagged as in the
frames produced by `stream_gemini` / `stream_openai` / `chat_stream`. -/
inductive StreamEvent where
  | content (text : Json)
  | thinking (text : Json)
  | usage (prompt_tokens completion_tokens total_tokens : Json)
  | error (message : String)
  | done

/-- The literal SSE error frame produced by
`yield f'data: \x7b\x7b"error": "\x7berror_text.decode()\x7d"\x7d\x7d\n\n'`
(main.py lines 219, 335, 423, 430, 436): plain string interpolation, no JSON
escaping of the body. -/
def errorFrame (b : String) : String := "data: \x7b\"error\": \"" ++ b ++ "\"\x7d\n\n"

/-- The `data: ` payload of `errorFrame`. -/
def errorFramePayload (b : String) : String := "\x7b\"error\": \"" ++ b ++ "\"\x7d"

/-! ## Gemini streaming decode (`stream_gemini`, main.py 222-247) -/

/-- The parts list the Gemini code iterates over:
`chunk["candidates"][0]["content"]["parts"]` guarded by
`if "candidates" in chunk and chunk["candidates"]:` and
`if "content" in candidate and "parts" in candidate["content"]:`
(identical guard structure in `call_gemini` and `stream_gemini`). -/
def geminiParts (chunk : Json) : List Json :=
  if hasKey chunk "candidates" && pyTruthy (jGetD chunk "candidates" .null) then
    let candidate := jIndex0 (jGetD chunk "candidates" .null)
    if hasKey candidate "content" && hasKey (jGetD candidate "content" .null) "parts" then
      jList (jGetD (jGetD candidate "content" .null) "parts" .null)
    else []
  else []

/-- Events from one Gemini part (main.py 230-234):
`text = part.get("text", "")`, `is_thought = part.get("thought", False)`,
`if text:` yield a thinking or content frame. -/
def geminiPartEvents (part : Json) : List StreamEvent :=
  let text := jGetD part "text" (.str "")
  let is_thought := pyTruthy (jGetD part "thought" (.bool false))
  if pyTruthy text then [if is_thought then .thinking text else .content text] else []

/-- The `usage` dict built from a chunk's `usageMetadata`
(main.py 238-242 and 176-180; defaults 0). -/
def geminiUsageEvents (chunk : Json) : List StreamEvent :=
  if hasKey chunk "usageMetadata" then
    let um := jGetD chunk "usageMetadata" .null
    [ .usage (jGetD um "promptTokenCount" (.num 0 0))
             (jGetD um "candidatesTokenCount" (.num 0 0))
             (jGetD um "totalTokenCount" (.num 0 0)) ]
  else []

/-- Events emitted for one JSON-decoded Gemini chunk (main.py 227-243):
the part loop's yields, then the usage yield when `usageMetadata` is
present. -/
def decodeGeminiChunk (chunk : Json) : List StreamEvent :=
  ((geminiParts chunk).foldl (fun acc part => acc ++ geminiPartEvents part) [])
    ++ geminiUsageEvents chunk

/-- Events for one upstream line in `stream_gemini` (main.py 222-245):
only `data: `-prefixed lines are considered, the payload is `line[6:]`,
and `json.JSONDecodeError` is swallowed (`except ...: pass`). -/
def geminiLineEvents (line : String) : List StreamEvent :=
  if pyStartsWith line "data: " then
    match parseJson (line.drop 6) with
    | some chunk => decodeGeminiChunk chunk
    | none => []
  else []

/-- All events produced by `stream_gemini`'s line loop. -/
def geminiRelayLines (lines : List String) : List StreamEvent :=
  lines.foldl (fun acc l => acc ++ geminiLineEvents l) []

/-- The whole event sequence of `stream_gemini` (main.py 216-247), as a
function of the upstream HTTP status, the upstream error body
(`error_text.decode()`), and the upstream response lines.  On a non-200
status the generator yields one error frame and returns (the trailing
`done` yield at line 247 is not reached); otherwise it relays all lines
and then yields the `done` frame. -/
def streamGemini (status : Nat) (errorBody : String) (lines : List String) : List StreamEvent :=
  if status ≠ 200 then [.error errorBody]
  else geminiRelayLines lines ++ [.done]

/-! ## OpenAI streaming decode (`stream_openai`, main.py 332-353) -/

/-- Events emitted for one JSON-decoded OpenAI chunk (main.py 344-349):
`delta = chunk["choices"][0].get("delta", \x7b\x7d)`,
`text = delta.get("content", "")`, `if text:` yield one content frame. -/
def decodeOpenaiChunk (chunk : Json) : List StreamEvent :=
  if hasKey chunk "choices" && pyTruthy (jGetD chunk "choices" .null) then
    let delta := jGetD (jIndex0 (jGetD chunk "choices" .null)) "delta" (.obj [])
    let text := jGetD delta "content" (.str "")
    if pyTruthy text then [.content text] else []
  else []

/-- The line loop of `stream_openai` (main.py 338-351): a payload equal to
`[DONE]` breaks out of the loop (no later line is processed); decode
failures are swallowed. -/
def openaiProcessLines : List String → List StreamEvent
  | [] => []
  | line :: rest =>
    if pyStartsWith line "data: " then
      let json_str := line.drop 6
      if json_str = "[DONE]" then []
      else
        (match parseJson json_str with
         | some chunk => decodeOpenaiChunk chunk
         | none => []) ++ openaiProcessLines rest
    else openaiProcessLines rest

/-- The whole event sequence of `stream_openai` (main.py 332-353).  Note
that after the `[DONE]` `break` the generator still falls through to the
final `yield 'data: \x7b"type": "done"\x7d\n\n'` at line 353, which is
outside the `async with` block but inside the generator. -/
def streamOpenai (status : Nat) (errorBody : String) (lines : List String) : List StreamEvent :=
  if status ≠ 200 then [.error errorBody]
  else openaiProcessLines lines ++ [.done]

/-! ## Non-streaming Gemini response parsing (`call_gemini`, main.py 159-182) -/

/-- The result model of the non-streaming endpoints (main.py 60-63). -/
structure ChatResponse where
  content : String
  thinking_content : Option String
  usage : Option (Json × Json × Json)

/-- One iteration of the part loop in `call_gemini` (main.py 168-172):
`if part.get("thought"): thinking_content = (thinking_content or "") +
part.get("text", "") else: content += part.get("text", "")`. -/
def callGeminiStep (acc : String × Option String) (part : Json) : String × Option String :=
  if pyTruthy (jGetD part "thought" .null) then
    (acc.1, some ((acc.2.getD "") ++ jStrD (jGetD part "text" (.str ""))))
  else
    (acc.1 ++ jStrD (jGetD part "text" (.str "")), acc.2)

/-- The response-parsing tail of `call_gemini` (main.py 159-182), from the
decoded response JSON to the returned `ChatResponse`. -/
def callGeminiParse (data : Json) : ChatResponse :=
  let st := (geminiParts data).foldl callGeminiStep ("", none)
  let usage :=
    if hasKey data "usageMetadata" then
      let um := jGetD data "usageMetadata" .null
      some (jGetD um "promptTokenCount" (.num 0 0),
            jGetD um "candidatesTokenCount" (.num 0 0),
            jGetD um "totalTokenCount" (.num 0 0))
    else none
  { content := st.1, thinking_content := st.2, usage := usage }

/-! ## Request models and the gateway (`chat` / `chat_stream`, main.py 390-446) -/

/-- A chat message (main.py 44-46). -/
structure Message where
  role : String
  content : String

/-- A chat request (main.py 49-57).  `temperature`/`max_tokens` are carried
for completeness; no claim concerns them. -/
structure ChatRequest where
  provider : String := "gemini"
  model : Option String := none
  messages : List Message
  temperature : Float := 0.7
  max_tokens : Int := 4096
  stream : Bool := false
  enable_search : Bool := false
  include_thoughts : Bool := false

/-- The configured credentials (main.py 30-39; `os.getenv(..., "")`, so an
unconfigured key is the empty string, which is falsy). -/
structure Config where
  GEMINI_API_KEY : String
  OPENAI_API_KEY : String

/-- Outcome of the `chat` handler's dispatch (main.py 390-409):
either an upstream call is made through `call_gemini`/`call_openai`, or an
`HTTPException(status_code, detail)` is raised before any upstream call. -/
inductive SendResult where
  | upstream (provider : String)
  | httpError (status : Nat) (detail : String)

/-- The dispatch logic of the `chat` handler (main.py 390-409):
`provider = request.provider.lower()`; empty API key (falsy) raises 500;
unknown provider raises 400 with detail
`f"不支持的供应商: \x7brequest.provider\x7d"`. -/
def chat (cfg : Config) (req : ChatRequest) : SendResult :=
  let provider := pyLower req.provider
  if provider = "gemini" then
    if cfg.GEMINI_API_KEY = "" then .httpError 500 "Gemini API Key 未配置"
    else .upstream "gemini"
  else if provider = "openai" then
    if cfg.OPENAI_API_KEY = "" then .httpError 500 "OpenAI API Key 未配置"
    else .upstream "openai"
  else .httpError 400 ("不支持的供应商: " ++ req.provider)

/-- The event sequence produced by `chat_stream`'s `generate()`
(main.py 419-436), as a function of the configuration, the request, and
the event sequences the inner `stream_gemini`/`stream_openai` generators
would produce when reached. -/
def chatStream (cfg : Config) (req : ChatRequest)
    (geminiEvents openaiEvents : List StreamEvent) : List StreamEvent :=
  let provider := pyLower req.provider
  if provider = "gemini" then
    if cfg.GEMINI_API_KEY = "" then [.error "Gemini API Key 未配置"]
    else geminiEvents
  else if provider = "openai" then
    if cfg.OPENAI_API_KEY = "" then [.error "OpenAI API Key 未配置"]
    else openaiEvents
  else [.error ("不支持的供应商: " ++ req.provider)]

/-- The Gemini wire-role mapping applied to each message
(main.py 131 and 196): `role = "user" if msg.role == "user" else "model"`. -/
def geminiRole (role : String) : String := if role = "user" then "user" else "model"

/-- The `contents` list of the Gemini request body (main.py 129-135 and
194-200): each message becomes `\x7b"role": role, "parts": [\x7b"text":
msg.content\x7d]\x7d`; modelled as (wire role, text) pairs. -/
def geminiContents (msgs : List Message) : List (String × String) :=
  msgs.map (fun m => (geminiRole m.role, m.content))

/-! ## Well-formedness of chunks (inputs on which the Python code does not
raise and text/thought fields have their documented types) -/

/-- A Gemini part on which the part loops are well-behaved: a dict whose
`thought` is absent or boolean and whose `text` is absent or a string. -/
def partWF (p : Json) : Bool :=
  jIsObj p &&
  (match jGet p "thought" with
   | none => true
   | some (.bool _) => true
   | _ => false) &&
  (match jGet p "text" with
   | none => true
   | some (.str _) => true
   | _ => false)

/-- A Gemini chunk/response on which the Python code does not raise: a dict;
a truthy `candidates` is a (necessarily non-empty) array whose first element
is a dict; that candidate's `content`, when present, is a dict; its `parts`,
when present, is an array of well-formed parts; `usageMetadata`, when
present, is a dict. -/
def geminiShapeWF (j : Json) : Bool :=
  jIsObj j &&
  (match jGet j "candidates" with
   | none => true
   | some (.arr []) => true
   | some (.arr (c0 :: _)) =>
     jIsObj c0 &&
     (match jGet c0 "content" with
      | none => true
      | some (.obj cf) =>
        (match jGet (.obj cf) "parts" with
         | none => true
         | some (.arr ps) => ps.all partWF
         | some _ => false)
      | some _ => false)
   | some v => !pyTruthy v) &&
  (match jGet j "usageMetadata" with
   | none => true
   | some (.obj _) => true
   | _ => false)

/-- An OpenAI chunk on which the Python code does not raise: a dict; a
truthy `choices` is a non-empty array with a dict head; that head's
`delta`, when present, is a dict; `delta["content"]`, when present, is a
string or null. -/
def openaiShapeWF (j : Json) : Bool :=
  jIsObj j &&
  (match jGet j "choices" with
   | none => true
   | some (.arr []) => true
   | some (.arr (c0 :: _)) =>
     jIsObj c0 &&
     (match jGet c0 "delta" with
      | none => true
      | some (.obj df) =>
        (match jGet (.obj df) "content" with
         | none => true
         | some (.str _) => true
         | some .null => true
         | some _ => false)
      | some _ => false)
   | some v => !pyTruthy v)

/-- Is the part's `thought` flag literally `true`?  (Claim-statement helper;
under `partWF` this coincides with the code's truthiness test.) -/
def isThoughtPart (p : Json) : Bool :=
  match jGet p "thought" with
  | some (.bool true) => true
  | _ => false

/-- The part's text as a string (claim-statement helper; under `partWF`
the `text` field is absent or a string, and this is what the code reads). -/
def partText (p : Json) : String := jStrD (jGetD p "text" (.str ""))

/-- Concatenation, in order, of a string-valued function over a list
(claim-statement helper). -/
def concatMap (f : Json → String) : List Json → String
  | [] => ""
  | p :: ps => f p ++ concatMap f ps

/-- The delta text of an OpenAI chunk, `chunk["choices"][0].get("delta",
\x7b\x7d).get("content", "")`, as a string (claim-statement helper; under
`openaiShapeWF` this is what the code reads). -/
def openaiDeltaText (chunk : Json) : String :=
  jStrD (jGetD (jGetD (jIndex0 (jGetD chunk "choices" .null)) "delta" (.obj [])) "content" (.str ""))

/-- Example Gemini streaming chunk: a thought part, a content part, an
empty-text part, and usage metadata (used by claim witnesses). -/
def gchunkExample : Json :=
  Json.obj
    [("candidates", Json.arr
        [Json.obj [("content", Json.obj [("parts", Json.arr
           [Json.obj [("thought", Json.bool true), ("text", Json.str "T")],
            Json.obj [("text", Json.str "C")],
            Json.obj [("text", Json.str "")]])])]]),
     ("usageMetadata", Json.obj
        [("promptTokenCount", Json.num 5 0),
         ("candidatesTokenCount", Json.num 7 0),
         ("totalTokenCount", Json.num 12 0)])]

/-- Example OpenAI streaming chunk with one content delta (used by claim
witnesses). -/
def ochunkExample : Json :=
  Json.obj [("choices", Json.arr [Json.obj [("delta", Json.obj [("content", Json.str "Hi")])]])]

/-- An OpenAI streaming chunk that carries usage metadata (both under the
OpenAI key `usage` and, for good measure, under the Gemini-style key
`usageMetadata`) and no choices (used by the C2 counterexample). -/
def ochunkUsageOnly : Json :=
  Json.obj
    [("usage", Json.obj
        [("prompt_tokens", Json.num 3 0),
         ("completion_tokens", Json.num 4 0),
         ("total_tokens", Json.num 7 0)]),
     ("usageMetadata", Json.obj [("promptTokenCount", Json.num 3 0)])]

/-- The Gemini non-streaming response of the spec's C6 example: one thought
part `A` and one plain part `B`. -/
def c6ExampleJson : Json :=
  Json.obj
    [("candidates", Json.arr
        [Json.obj [("content", Json.obj [("parts", Json.arr
           [Json.obj [("thought", Json.bool true), ("text", Json.str "A")],
            Json.obj [("text", Json.str "B")]])])]])]

/-! ## Helper lemmas -/

/-- Sanity: the `json.loads` model parses a representative document the way
Python does. -/
theorem parseJson_sanity :
    parseJson "\x7b\"a\": [1, true, null, \"x\"]\x7d" =
      some (Json.obj [("a", Json.arr [Json.num 1 0, Json.bool true, Json.null, Json.str "x"])]) ∧
    parseJson "\x7bnot json" = none ∧
    parseJson "  \"h\\u0041i\"  " = some (Json.str "hAi") ∧
    parseJson "-12.5e1" = some (Json.num (-125) 0) ∧
    parseJson "\x7b\"a\": 1, \"a\": 2\x7d" =
      some (Json.obj [("a", Json.num 1 0), ("a", Json.num 2 0)]) ∧
    jGet (Json.obj [("a", Json.num 1 0), ("a", Json.num 2 0)]) "a" = some (Json.num 2 0) :=
  ⟨rfl, rfl, rfl, rfl, rfl, rfl⟩

theorem openaiProcessLines_append_done (pre post : List String) :
    openaiProcessLines (pre ++ "data: [DONE]" :: post) = openaiProcessLines pre := by
  induction pre with
  | nil => rfl
  | cons l pre ih =>
    simp only [List.cons_append, openaiProcessLines, List.append_eq]
    split
    · split
      · rfl
      · rw [ih]
    · exact ih

theorem hexVal_ne_nl {h : Char} {a : Nat} (hh : hexVal h = some a) : h ≠ '\n' := by
  rintro rfl
  simp [hexVal] at hh

theorem decodeEscape_ne_nl {c d : Char} (hc : decodeEscape c = some d) : c ≠ '\n' := by
  rintro rfl
  simp [decodeEscape] at hc

theorem parseStringBody_spec (l s rest : List Char) (h : parseStringBody l = some (s, rest)) :
    ∃ enc, l = enc ++ '"' :: rest ∧ s.length ≤ enc.length ∧ '\n' ∉ enc ∧
      (('\\' ∈ enc ∨ '"' ∈ enc) → s.length < enc.length) := by
  induction l using parseStringBody.induct generalizing s rest with
  | case1 => rw [parseStringBody.eq_def] at h; exact Option.noConfusion h
  | case2 r =>
    rw [parseStringBody.eq_def] at h
    simp only [if_true, ite_true, Option.some.injEq, Prod.mk.injEq] at h
    obtain ⟨rfl, rfl⟩ := h
    exact ⟨[], rfl, by simp, by simp, by simp⟩
  | case3 hne =>
    rw [parseStringBody.eq_def] at h
    simp only [if_true, ite_true, if_false, ite_false] at h
    rw [if_neg (by decide : ¬('\\' = '"'))] at h
    exact Option.noConfusion h
  | case4 h1 h2 h3 h4 r3 a b c2 d hh4 hh3 hh2 hh1 hne ih =>
    rw [parseStringBody.eq_def] at h
    simp only [hh1, hh2, hh3, hh4, if_true, ite_true, if_false, ite_false] at h
    rw [if_neg (by decide : ¬('\\' = '"'))] at h
    rw [Option.map_eq_some'] at h
    obtain ⟨⟨s', r'⟩, hrec, heq⟩ := h
    rw [Prod.mk.injEq] at heq
    obtain ⟨h1eq, h2eq⟩ := heq
    subst h1eq
    subst h2eq
    obtain ⟨enc, henc, hlen, hnl, _⟩ := ih _ _ hrec
    refine ⟨'\\' :: 'u' :: h1 :: h2 :: h3 :: h4 :: enc, by simp [henc],
      by simp only [List.length_cons]; omega, ?_, ?_⟩
    · intro hm
      simp only [List.mem_cons] at hm
      rcases hm with h' | h' | h' | h' | h' | h' | h'
      · exact absurd h'.symm (by decide)
      · exact absurd h'.symm (by decide)
      · exact (hexVal_ne_nl hh1) h'.symm
      · exact (hexVal_ne_nl hh2) h'.symm
      · exact (hexVal_ne_nl hh3) h'.symm
      · exact (hexVal_ne_nl hh4) h'.symm
      · exact hnl h'
    · intro _
      simp only [List.length_cons]
      omega
  | case5 h1 h2 h3 h4 r3 hfail hne =>
    rw [parseStringBody.eq_def] at h
    rcases hh1 : hexVal h1 with _ | a <;> rcases hh2 : hexVal h2 with _ | b <;>
      rcases hh3 : hexVal h3 with _ | c2 <;> rcases hh4 : hexVal h4 with _ | d <;>
      simp only [hh1, hh2, hh3, hh4, if_true, ite_true, if_false, ite_false] at h <;>
      first
        | exact (hfail _ _ _ _ hh1 hh2 hh3 hh4).elim
        | (rw [if_neg (by decide : ¬('\\' = '"'))] at h
           exact Option.noConfusion h)
  | case6 r2 hshort hne =>
    rcases r2 with _ | ⟨x1, _ | ⟨x2, _ | ⟨x3, _ | ⟨x4, r⟩⟩⟩⟩
    · rw [parseStringBody.eq_def] at h
      simp only [if_true, ite_true, if_false, ite_false] at h
      rw [if_neg (by decide : ¬('\\' = '"'))] at h
      exact Option.noConfusion h
    · rw [parseStringBody.eq_def] at h
      simp only [if_true, ite_true, if_false, ite_false] at h
      rw [if_neg (by decide : ¬('\\' = '"'))] at h
      exact Option.noConfusion h
    · rw [parseStringBody.eq_def] at h
      simp only [if_true, ite_true, if_false, ite_false] at h
      rw [if_neg (by decide : ¬('\\' = '"'))] at h
      exact Option.noConfusion h
    · rw [parseStringBody.eq_def] at h
      simp only [if_true, ite_true, if_false, ite_false] at h
      rw [if_neg (by decide : ¬('\\' = '"'))] at h
      exact Option.noConfusion h
    · exact (hshort _ _ _ _ _ rfl).elim
  | case7 e r2 hnu d hdec hne ih =>
    rw [parseStringBody.eq_def] at h
    simp only [hnu, hdec, if_true, ite_true, if_false, ite_false] at h
    rw [if_neg (by decide : ¬('\\' = '"'))] at h
    rw [Option.map_eq_some'] at h
    obtain ⟨⟨s', r'⟩, hrec, heq⟩ := h
    rw [Prod.mk.injEq] at heq
    obtain ⟨h1eq, h2eq⟩ := heq
    subst h1eq
    subst h2eq
    obtain ⟨enc, henc, hlen, hnl, _⟩ := ih _ _ hrec
    refine ⟨'\\' :: e :: enc, by simp [henc], by simp only [List.length_cons]; omega, ?_, ?_⟩
    · intro hm
      simp only [List.mem_cons] at hm
      rcases hm with h' | h' | h'
      · exact absurd h'.symm (by decide)
      · exact (decodeEscape_ne_nl hdec) h'.symm
      · exact hnl h'
    · intro _
      simp only [List.length_cons]
      omega
  | case8 e r2 hnu hdec hne =>
    rw [parseStringBody.eq_def] at h
    simp only [hnu, hdec, if_true, ite_true, if_false, ite_false] at h
    rw [if_neg (by decide : ¬('\\' = '"'))] at h
    exact Option.noConfusion h
  | case9 e r2 hq hbs hctl =>
    rw [parseStringBody.eq_def] at h
    simp only [hq, hbs, hctl, if_true, ite_true, if_false, ite_false] at h
    exact Option.noConfusion h
  | case10 e r2 hq hbs hctl ih =>
    rw [parseStringBody.eq_def] at h
    simp only [hq, hbs, hctl, if_true, ite_true, if_false, ite_false] at h
    rw [Option.map_eq_some'] at h
    obtain ⟨⟨s', r'⟩, hrec, heq⟩ := h
    rw [Prod.mk.injEq] at heq
    obtain ⟨h1eq, h2eq⟩ := heq
    subst h1eq
    subst h2eq
    obtain ⟨enc, henc, hlen, hnl, hstrict⟩ := ih _ _ hrec
    refine ⟨e :: enc, by simp [henc], by simp only [List.length_cons]; omega, ?_, ?_⟩
    · intro hm
      simp only [List.mem_cons] at hm
      rcases hm with h' | h'
      · subst h'
        exact hctl (by decide)
      · exact hnl h'
    · intro hm
      have hin : '\\' ∈ enc ∨ '"' ∈ enc := by
        simp only [List.mem_cons] at hm
        rcases hm with h' | h'
        · rcases h' with h' | h'
          · exact absurd h'.symm hbs
          · exact .inl h'
        · rcases h' with h' | h'
          · exact absurd h'.symm hq
          · exact .inr h'
      have := hstrict hin
      simp only [List.length_cons]
      omega

theorem parseStringBody_rest_lt (l s rest : List Char) (h : parseStringBody l = some (s, rest)) :
    rest.length < l.length := by
  obtain ⟨enc, henc, -, -, -⟩ := parseStringBody_spec l s rest h
  subst henc
  simp only [List.length_append, List.length_cons]
  omega

theorem skipWs_length (l : List Char) : (skipWs l).length ≤ l.length := by
  induction l with
  | nil => simp [skipWs]
  | cons c r ih =>
    have he : skipWs (c :: r) =
        if c = ' ' ∨ c = '\t' ∨ c = '\n' ∨ c = '\r' then skipWs r else c :: r := rfl
    rw [he]
    split
    · exact Nat.le_trans ih (by simp)
    · simp

theorem skipWs_eq_cons_ne_nil {l r : List Char} {c : Char} (h : skipWs l = c :: r) : l ≠ [] := by
  rintro rfl
  simp [skipWs] at h

theorem takeDigits_rest_le (l : List Char) : (takeDigits l).2.length ≤ l.length := by
  induction l with
  | nil => simp [takeDigits]
  | cons c r ih =>
    have he : takeDigits (c :: r) =
        if c.isDigit then (c :: (takeDigits r).1, (takeDigits r).2) else ([], c :: r) := rfl
    rw [he]
    split
    · simp only []
      exact Nat.le_trans ih (by simp)
    · simp

theorem parseFrac_rest_le (l ds r : List Char) (h : parseFrac l = some (ds, r)) :
    r.length ≤ l.length := by
  rw [parseFrac.eq_def] at h
  split at h
  · rename_i r'
    rcases htd : takeDigits r' with ⟨ds2, r2⟩
    rw [htd] at h
    rcases ds2 with _ | ⟨d0, ds2⟩
    · exact Option.noConfusion h
    · simp only [Option.some.injEq, Prod.mk.injEq] at h
      obtain ⟨-, h2⟩ := h
      subst h2
      have := takeDigits_rest_le r'
      rw [htd] at this
      simp only [] at this
      simp only [List.length_cons]
      omega
  · simp only [Option.some.injEq, Prod.mk.injEq] at h
    obtain ⟨-, h2⟩ := h
    subst h2
    exact Nat.le_refl _

theorem parseExpTail_rest_le (l : List Char) (e : Int) (r : List Char)
    (h : parseExpTail l = some (e, r)) : r.length ≤ l.length := by
  unfold parseExpTail at h
  split at h
  case h_1 t =>
    simp only [] at h
    rcases htd : takeDigits t with ⟨ds2, r2⟩
    rw [htd] at h
    rcases ds2 with _ | ⟨d0, ds2⟩
    · exact Option.noConfusion h
    · simp only [Option.some.injEq, Prod.mk.injEq] at h
      obtain ⟨-, h2⟩ := h
      subst h2
      have := takeDigits_rest_le t
      rw [htd] at this
      simp only [] at this
      simp only [List.length_cons]
      omega
  case h_2 t =>
    simp only [] at h
    rcases htd : takeDigits t with ⟨ds2, r2⟩
    rw [htd] at h
    rcases ds2 with _ | ⟨d0, ds2⟩
    · exact Option.noConfusion h
    · simp only [Option.some.injEq, Prod.mk.injEq] at h
      obtain ⟨-, h2⟩ := h
      subst h2
      have := takeDigits_rest_le t
      rw [htd] at this
      simp only [] at this
      simp only [List.length_cons]
      omega
  case h_3 =>
    simp only [] at h
    rcases htd : takeDigits l with ⟨ds2, r2⟩
    rw [htd] at h
    rcases ds2 with _ | ⟨d0, ds2⟩
    · exact Option.noConfusion h
    · simp only [Option.some.injEq, Prod.mk.injEq] at h
      obtain ⟨-, h2⟩ := h
      subst h2
      have := takeDigits_rest_le l
      rw [htd] at this
      simp only [] at this
      omega

theorem parseExp_rest_le (l : List Char) (e : Int) (r : List Char)
    (h : parseExp l = some (e, r)) : r.length ≤ l.length := by
  rw [parseExp.eq_def] at h
  split at h
  · rename_i r'
    have := parseExpTail_rest_le _ _ _ h
    simp only [List.length_cons]
    omega
  · rename_i r'
    have := parseExpTail_rest_le _ _ _ h
    simp only [List.length_cons]
    omega
  · simp only [Option.some.injEq, Prod.mk.injEq] at h
    obtain ⟨-, h2⟩ := h
    subst h2
    exact Nat.le_refl _

theorem parseNumber_facts (l : List Char) (v : Json) (r : List Char)
    (h : parseNumber l = some (v, r)) :
    (∃ m e, v = Json.num m e) ∧ r.length ≤ l.length := by
  unfold parseNumber at h
  split at h
  case h_1 t =>
    simp only [] at h
    rcases htd : takeDigits t with ⟨ints, l2⟩
    rw [htd] at h
    rcases ints with _ | ⟨i0, ints⟩
    · exact Option.noConfusion h
    · simp only [] at h
      rcases hfr : parseFrac l2 with _ | ⟨fracs, l3⟩
      · rw [hfr] at h
        exact Option.noConfusion h
      · rw [hfr] at h
        simp only [] at h
        rcases hex : parseExp l3 with _ | ⟨e2, l4⟩
        · rw [hex] at h
          exact Option.noConfusion h
        · rw [hex] at h
          simp only [Option.some.injEq, Prod.mk.injEq] at h
          obtain ⟨h1, h2⟩ := h
          subst h2
          refine ⟨⟨_, _, h1.symm⟩, ?_⟩
          have hA := takeDigits_rest_le t
          rw [htd] at hA
          simp only [] at hA
          have hB := parseFrac_rest_le _ _ _ hfr
          have hC := parseExp_rest_le _ _ _ hex
          simp only [List.length_cons]
          omega
  case h_2 hne =>
    simp only [] at h
    rcases htd : takeDigits l with ⟨ints, l2⟩
    rw [htd] at h
    rcases ints with _ | ⟨i0, ints⟩
    · exact Option.noConfusion h
    · simp only [] at h
      rcases hfr : parseFrac l2 with _ | ⟨fracs, l3⟩
      · rw [hfr] at h
        exact Option.noConfusion h
      · rw [hfr] at h
        simp only [] at h
        rcases hex : parseExp l3 with _ | ⟨e2, l4⟩
        · rw [hex] at h
          exact Option.noConfusion h
        · rw [hex] at h
          simp only [Option.some.injEq, Prod.mk.injEq] at h
          obtain ⟨h1, h2⟩ := h
          subst h2
          refine ⟨⟨_, _, h1.symm⟩, ?_⟩
          have hA := takeDigits_rest_le l
          rw [htd] at hA
          simp only [] at hA
          have hB := parseFrac_rest_le _ _ _ hfr
          have hC := parseExp_rest_le _ _ _ hex
          omega

theorem parseValue_succ (f : Nat) (l : List Char) :
    parseValue (f + 1) l =
      match l with
      | '{' :: rest =>
        match skipWs rest with
        | '}' :: r2 => some (.obj [], r2)
        | r2 => parseMembers f r2 []
      | '[' :: rest =>
        match skipWs rest with
        | ']' :: r2 => some (.arr [], r2)
        | r2 => parseElems f r2 []
      | '"' :: rest => (parseStringBody rest).map (fun p => (Json.str (String.mk p.1), p.2))
      | 't' :: 'r' :: 'u' :: 'e' :: rest => some (.bool true, rest)
      | 'f' :: 'a' :: 'l' :: 's' :: 'e' :: rest => some (.bool false, rest)
      | 'n' :: 'u' :: 'l' :: 'l' :: rest => some (.null, rest)
      | c :: rest =>
        if c = '-' ∨ c.isDigit then parseNumber (c :: rest) else none
      | [] => none := rfl

theorem parseMembers_succ (f : Nat) (l : List Char) (acc : List (String × Json)) :
    parseMembers (f + 1) l acc =
      match l with
      | '"' :: rest =>
        match parseStringBody rest with
        | none => none
        | some (k, r2) =>
          match skipWs r2 with
          | ':' :: r3 =>
            match parseValue f (skipWs r3) with
            | none => none
            | some (v, r4) =>
              match skipWs r4 with
              | ',' :: r5 => parseMembers f (skipWs r5) (acc ++ [(String.mk k, v)])
              | '}' :: r5 => some (.obj (acc ++ [(String.mk k, v)]), r5)
              | _ => none
          | _ => none
      | _ => none := rfl

theorem parseElems_succ (f : Nat) (l : List Char) (acc : List Json) :
    parseElems (f + 1) l acc =
      match parseValue f l with
      | none => none
      | some (v, r) =>
        match skipWs r with
        | ',' :: r2 => parseElems f (skipWs r2) (acc ++ [v])
        | ']' :: r2 => some (.arr (acc ++ [v]), r2)
        | _ => none := rfl

theorem parseStringBody_quote (l : List Char) : parseStringBody ('"' :: l) = some ([], l) := by
  rw [parseStringBody.eq_def]
  simp

theorem parseStringBody_ord (c : Char) (l : List Char)
    (h1 : ¬c = '"') (h2 : ¬c = '\\') (h3 : ¬c.toNat < 32) :
    parseStringBody (c :: l) = (parseStringBody l).map (fun p => (c :: p.1, p.2)) := by
  rw [parseStringBody.eq_def]
  simp only [if_neg h1, if_neg h2, if_neg h3]

theorem parseStringBody_plain (cs X : List Char)
    (h : ∀ c ∈ cs, ¬c = '"' ∧ ¬c = '\\' ∧ ¬c.toNat < 32) :
    parseStringBody (cs ++ '"' :: X) = some (cs, X) := by
  induction cs with
  | nil =>
    rw [List.nil_append]
    exact parseStringBody_quote X
  | cons c cs ih =>
    obtain ⟨h1, h2, h3⟩ := h c (List.mem_cons_self _ _)
    rw [List.cons_append, parseStringBody_ord c _ h1 h2 h3,
      ih (fun x hx => h x (List.mem_cons_of_mem _ hx))]
    rfl

theorem parseMembers_shape : ∀ (f : Nat) (l : List Char) (acc : List (String × Json))
    (v : Json) (r : List Char),
    parseMembers f l acc = some (v, r) → ∃ fs, v = Json.obj fs := by
  intro f
  induction f with
  | zero =>
    intro l acc v r h
    exact Option.noConfusion h
  | succ f ih =>
    intro l acc v r h
    rw [parseMembers_succ] at h
    repeat' split at h
    all_goals
      first
        | exact Option.noConfusion h
        | (simp only [Option.some.injEq, Prod.mk.injEq] at h
           exact ⟨_, h.1.symm⟩)
        | exact ih _ _ _ _ h

theorem parseElems_shape : ∀ (f : Nat) (l : List Char) (acc : List Json)
    (v : Json) (r : List Char),
    parseElems f l acc = some (v, r) → ∃ xs, v = Json.arr xs := by
  intro f
  induction f with
  | zero =>
    intro l acc v r h
    exact Option.noConfusion h
  | succ f ih =>
    intro l acc v r h
    rw [parseElems_succ] at h
    repeat' split at h
    all_goals
      first
        | exact Option.noConfusion h
        | (simp only [Option.some.injEq, Prod.mk.injEq] at h
           exact ⟨_, h.1.symm⟩)
        | exact ih _ _ _ _ h

theorem parseValue_str_len (f : Nat) (l : List Char) (v : Json) (r : List Char)
    (h : parseValue f l = some (v, r)) (t : String) (hv : v = Json.str t) :
    t.length + 2 ≤ l.length := by
  cases f with
  | zero => exact Option.noConfusion h
  | succ f =>
    rw [parseValue_succ] at h
    split at h
    case h_1 rest =>
      split at h
      · simp only [Option.some.injEq, Prod.mk.injEq] at h
        rw [← h.1] at hv
        exact Json.noConfusion hv
      · obtain ⟨fs, hfs⟩ := parseMembers_shape _ _ _ _ _ h
        rw [hfs] at hv
        exact Json.noConfusion hv
    case h_2 rest =>
      split at h
      · simp only [Option.some.injEq, Prod.mk.injEq] at h
        rw [← h.1] at hv
        exact Json.noConfusion hv
      · obtain ⟨xs, hxs⟩ := parseElems_shape _ _ _ _ _ h
        rw [hxs] at hv
        exact Json.noConfusion hv
    case h_3 rest =>
      rw [Option.map_eq_some'] at h
      obtain ⟨⟨s', r'⟩, hps, heq⟩ := h
      rw [Prod.mk.injEq] at heq
      obtain ⟨h1, h2⟩ := heq
      obtain ⟨enc, henc, hlen, -, -⟩ := parseStringBody_spec _ _ _ hps
      have ht : t = String.mk s' := by
        rw [hv] at h1
        injection h1.symm
      have htl : t.length = s'.length := by rw [ht]; rfl
      rw [henc]
      simp only [List.length_cons, List.length_append]
      omega
    case h_4 rest =>
      simp only [Option.some.injEq, Prod.mk.injEq] at h
      rw [← h.1] at hv
      exact Json.noConfusion hv
    case h_5 rest =>
      simp only [Option.some.injEq, Prod.mk.injEq] at h
      rw [← h.1] at hv
      exact Json.noConfusion hv
    case h_6 rest =>
      simp only [Option.some.injEq, Prod.mk.injEq] at h
      rw [← h.1] at hv
      exact Json.noConfusion hv
    case h_7 c rest =>
      split at h
      · obtain ⟨⟨m, e, hnum⟩, -⟩ := parseNumber_facts _ _ _ h
        rw [hnum] at hv
        exact Json.noConfusion hv
      · exact Option.noConfusion h
    case h_8 => exact Option.noConfusion h

theorem parse_rest_le : ∀ (f : Nat),
    (∀ l v r, parseValue f l = some (v, r) → r.length ≤ l.length) ∧
    (∀ l acc v r, parseMembers f l acc = some (v, r) → r.length ≤ l.length) ∧
    (∀ l acc v r, parseElems f l acc = some (v, r) → r.length ≤ l.length) := by
  intro f
  induction f with
  | zero =>
    exact ⟨fun l v r h => Option.noConfusion h, fun l a v r h => Option.noConfusion h,
           fun l a v r h => Option.noConfusion h⟩
  | succ f ih =>
    obtain ⟨ihv, ihm, ihe⟩ := ih
    refine ⟨?_, ?_, ?_⟩
    · intro l v r h
      rw [parseValue_succ] at h
      split at h
      case h_1 rest =>
        have hsk := skipWs_length rest
        split at h
        · rename_i r2 heq
          simp only [Option.some.injEq, Prod.mk.injEq] at h
          obtain ⟨-, h2⟩ := h
          subst h2
          have : (skipWs rest).length = r2.length + 1 := by rw [heq]; rfl
          simp only [List.length_cons]
          omega
        · have := ihm _ _ _ _ h
          simp only [List.length_cons]
          omega
      case h_2 rest =>
        have hsk := skipWs_length rest
        split at h
        · rename_i r2 heq
          simp only [Option.some.injEq, Prod.mk.injEq] at h
          obtain ⟨-, h2⟩ := h
          subst h2
          have : (skipWs rest).length = r2.length + 1 := by rw [heq]; rfl
          simp only [List.length_cons]
          omega
        · have := ihe _ _ _ _ h
          simp only [List.length_cons]
          omega
      case h_3 rest =>
        rw [Option.map_eq_some'] at h
        obtain ⟨⟨s', r'⟩, hps, heq⟩ := h
        rw [Prod.mk.injEq] at heq
        obtain ⟨-, h2⟩ := heq
        subst h2
        have := parseStringBody_rest_lt _ _ _ hps
        simp only [List.length_cons]
        omega
      case h_4 rest =>
        simp only [Option.some.injEq, Prod.mk.injEq] at h
        obtain ⟨-, h2⟩ := h
        subst h2
        simp only [List.length_cons]
        omega
      case h_5 rest =>
        simp only [Option.some.injEq, Prod.mk.injEq] at h
        obtain ⟨-, h2⟩ := h
        subst h2
        simp only [List.length_cons]
        omega
      case h_6 rest =>
        simp only [Option.some.injEq, Prod.mk.injEq] at h
        obtain ⟨-, h2⟩ := h
        subst h2
        simp only [List.length_cons]
        omega
      case h_7 c rest =>
        split at h
        · exact (parseNumber_facts _ _ _ h).2
        · exact Option.noConfusion h
      case h_8 => exact Option.noConfusion h
    · intro l acc v r h
      rw [parseMembers_succ] at h
      split at h
      case h_1 rest =>
        rcases hps : parseStringBody rest with _ | ⟨k, r2⟩
        · rw [hps] at h
          exact Option.noConfusion h
        · rw [hps] at h
          simp only [] at h
          have hr2 := parseStringBody_rest_lt _ _ _ hps
          have hsk2 := skipWs_length r2
          split at h
          case h_1 r3 heq3 =>
            have hr3 : (skipWs r2).length = r3.length + 1 := by rw [heq3]; rfl
            have hsk3 := skipWs_length r3
            rcases hpv : parseValue f (skipWs r3) with _ | ⟨vv, r4⟩
            · rw [hpv] at h
              exact Option.noConfusion h
            · rw [hpv] at h
              simp only [] at h
              have hr4 := ihv _ _ _ hpv
              have hsk4 := skipWs_length r4
              split at h
              case h_1 r5 heq5 =>
                have hr5 : (skipWs r4).length = r5.length + 1 := by rw [heq5]; rfl
                have hsk5 := skipWs_length r5
                have := ihm _ _ _ _ h
                simp only [List.length_cons]
                omega
              case h_2 r5 heq5 =>
                have hr5 : (skipWs r4).length = r5.length + 1 := by rw [heq5]; rfl
                simp only [Option.some.injEq, Prod.mk.injEq] at h
                obtain ⟨-, h2⟩ := h
                subst h2
                simp only [List.length_cons]
                omega
              case h_3 => exact Option.noConfusion h
          case h_2 => exact Option.noConfusion h
      case h_2 => exact Option.noConfusion h
    · intro l acc v r h
      rw [parseElems_succ] at h
      rcases hpv : parseValue f l with _ | ⟨vv, r4⟩
      · rw [hpv] at h
        exact Option.noConfusion h
      · rw [hpv] at h
        simp only [] at h
        have hr4 := ihv _ _ _ hpv
        have hsk4 := skipWs_length r4
        split at h
        case h_1 r5 heq5 =>
          have hr5 : (skipWs r4).length = r5.length + 1 := by rw [heq5]; rfl
          have hsk5 := skipWs_length r5
          have := ihe _ _ _ _ h
          omega
        case h_2 r5 heq5 =>
          have hr5 : (skipWs r4).length = r5.length + 1 := by rw [heq5]; rfl
          simp only [Option.some.injEq, Prod.mk.injEq] at h
          obtain ⟨-, h2⟩ := h
          subst h2
          omega
        case h_3 => exact Option.noConfusion h

theorem foldl_lookup {k : String} {v : Json} :
    ∀ (fs : List (String × Json)) (acc : Option Json),
      fs.foldl (fun acc p => if p.1 = k then some p.2 else acc) acc = some v →
      (k, v) ∈ fs ∨ acc = some v := by
  intro fs
  induction fs with
  | nil => intro acc h; exact Or.inr h
  | cons p fs ih =>
    intro acc h
    rcases ih _ h with hmem | hacc
    · exact Or.inl (List.mem_cons_of_mem _ hmem)
    · simp only [] at hacc
      by_cases hk : p.1 = k
      · rw [if_pos hk] at hacc
        left
        have hp : p = (k, v) := by
          obtain ⟨p1, p2⟩ := p
          simp only [Option.some.injEq] at hacc
          simp only at hk
          rw [hk, hacc]
        rw [← hp]
        exact List.mem_cons_self _ _
      · rw [if_neg hk] at hacc
        exact Or.inr hacc

theorem jGet_mem {fs : List (String × Json)} {k : String} {v : Json}
    (h : jGet (Json.obj fs) k = some v) : (k, v) ∈ fs := by
  rcases foldl_lookup fs none h with hmem | habs
  · exact hmem
  · exact Option.noConfusion habs

theorem parseMembers_strings : ∀ (f : Nat) (l : List Char) (acc : List (String × Json))
    (v : Json) (r : List Char), parseMembers f l acc = some (v, r) →
    ∃ fs, v = Json.obj fs ∧
      ∀ kv ∈ fs, kv ∈ acc ∨ ∀ t, kv.2 = Json.str t → t.length + 2 ≤ l.length := by
  intro f
  induction f with
  | zero => intro l acc v r h; exact Option.noConfusion h
  | succ f ih =>
    intro l acc v r h
    rw [parseMembers_succ] at h
    split at h
    case h_1 rest =>
      rcases hps : parseStringBody rest with _ | ⟨k, r2⟩
      · rw [hps] at h
        exact Option.noConfusion h
      · rw [hps] at h
        simp only [] at h
        have hr2 := parseStringBody_rest_lt _ _ _ hps
        have hsk2 := skipWs_length r2
        split at h
        case h_1 r3 heq3 =>
          have hr3 : (skipWs r2).length = r3.length + 1 := by rw [heq3]; rfl
          have hsk3 := skipWs_length r3
          rcases hpv : parseValue f (skipWs r3) with _ | ⟨vv, r4⟩
          · rw [hpv] at h
            exact Option.noConfusion h
          · rw [hpv] at h
            simp only [] at h
            have hvlen : ∀ t, vv = Json.str t → t.length + 2 ≤ ('"' :: rest).length := by
              intro t ht
              have := parseValue_str_len f _ _ _ hpv t ht
              simp only [List.length_cons]
              omega
            have hr4 := (parse_rest_le f).1 _ _ _ hpv
            have hsk4 := skipWs_length r4
            split at h
            case h_1 r5 heq5 =>
              have hr5 : (skipWs r4).length = r5.length + 1 := by rw [heq5]; rfl
              have hsk5 := skipWs_length r5
              obtain ⟨fs, hfs, hkv⟩ := ih _ _ _ _ h
              refine ⟨fs, hfs, ?_⟩
              intro kv hm
              rcases hkv kv hm with hin | hbound
              · rw [List.mem_append] at hin
                rcases hin with hin | hone
                · exact Or.inl hin
                · right
                  intro t ht
                  have hkv2 : kv = (String.mk k, vv) := by simpa using hone
                  rw [hkv2] at ht
                  exact hvlen t ht
              · right
                intro t ht
                have := hbound t ht
                simp only [List.length_cons]
                omega
            case h_2 r5 heq5 =>
              simp only [Option.some.injEq, Prod.mk.injEq] at h
              obtain ⟨h1, h2⟩ := h
              refine ⟨acc ++ [(String.mk k, vv)], h1.symm, ?_⟩
              intro kv hm
              rw [List.mem_append] at hm
              rcases hm with hin | hone
              · exact Or.inl hin
              · right
                intro t ht
                have hkv2 : kv = (String.mk k, vv) := by simpa using hone
                rw [hkv2] at ht
                exact hvlen t ht
            case h_3 => exact Option.noConfusion h
        case h_2 => exact Option.noConfusion h
    case h_2 => exact Option.noConfusion h

theorem foldlAppendEq {α β : Type} (f : α → List β) :
    ∀ (l : List α) (init : List β),
      l.foldl (fun acc x => acc ++ f x) init = init ++ (l.map f).flatten := by
  intro l
  induction l with
  | nil => intro init; simp
  | cons x xs ih => intro init; simp [ih]

theorem thought_truthy (p : Json) (d : Json) (hd : pyTruthy d = false)
    (h : partWF p = true) :
    pyTruthy (jGetD p "thought" d) = isThoughtPart p := by
  simp only [partWF, Bool.and_eq_true] at h
  rcases hjt : jGet p "thought" with _ | j
  · simp [jGetD, hjt, hd, isThoughtPart]
  · cases j with
    | null => simp [hjt] at h
    | bool b => cases b <;> simp [jGetD, hjt, pyTruthy, isThoughtPart]
    | num m e => simp [hjt] at h
    | str s => simp [hjt] at h
    | arr xs => simp [hjt] at h
    | obj fs => simp [hjt] at h

theorem callGeminiFoldInv : ∀ (ps : List Json), ps.all partWF = true →
    ∀ (c : String) (t : Option String),
      ps.foldl callGeminiStep (c, t) =
        (c ++ concatMap partText (ps.filter (fun p => !isThoughtPart p)),
         if ps.any isThoughtPart then
           some (t.getD "" ++ concatMap partText (ps.filter isThoughtPart))
         else t) := by
  intro ps
  induction ps with
  | nil => intro _ c t; simp [concatMap]
  | cons p ps ih =>
    intro hwf c t
    rw [List.all_cons, Bool.and_eq_true] at hwf
    obtain ⟨hp, hps⟩ := hwf
    have ht := thought_truthy p Json.null rfl hp
    simp only [List.foldl_cons]
    rw [ih hps]
    unfold callGeminiStep
    rw [ht]
    by_cases hth : isThoughtPart p
    · have hfilter : (p :: ps).filter (fun q => !isThoughtPart q) =
          ps.filter (fun q => !isThoughtPart q) := by simp [List.filter_cons, hth]
      have hfilter2 : (p :: ps).filter isThoughtPart = p :: ps.filter isThoughtPart := by
        simp [List.filter_cons, hth]
      rw [hfilter, hfilter2]
      simp only [hth, if_true, ite_true, List.any_cons, Bool.true_or]
      by_cases hany : ps.any isThoughtPart
      · simp [hany, concatMap, partText, String.append_assoc]
      · have hnil : ps.filter isThoughtPart = [] := by
          rw [List.filter_eq_nil_iff]
          intro x hx hcontra
          exact hany (List.any_eq_true.mpr ⟨x, hx, hcontra⟩)
        simp [hany, hnil, concatMap, partText]
    · have hfilter : (p :: ps).filter (fun q => !isThoughtPart q) =
          p :: ps.filter (fun q => !isThoughtPart q) := by simp [List.filter_cons, hth]
      have hfilter2 : (p :: ps).filter isThoughtPart = ps.filter isThoughtPart := by
        simp [List.filter_cons, hth]
      rw [hfilter, hfilter2]
      simp [hth, concatMap, partText, String.append_assoc]

theorem geminiShapeWF_parts (j : Json) (h : geminiShapeWF j = true) :
    (geminiParts j).all partWF = true := by
  simp only [geminiShapeWF, Bool.and_eq_true] at h
  obtain ⟨⟨hobj, hcand⟩, hum⟩ := h
  rcases hc : jGet j "candidates" with _ | v
  · simp [geminiParts, hasKey, hc]
  · cases v with
    | null => simp [geminiParts, hasKey, hc, jGetD, pyTruthy]
    | bool b =>
      rw [hc] at hcand
      cases b
      · simp [geminiParts, hasKey, hc, jGetD, pyTruthy]
      · simp [pyTruthy] at hcand
    | num m e =>
      rw [hc] at hcand
      simp only [Bool.not_eq_true'] at hcand
      simp [geminiParts, hasKey, hc, jGetD, hcand]
    | str s =>
      rw [hc] at hcand
      simp only [Bool.not_eq_true'] at hcand
      simp [geminiParts, hasKey, hc, jGetD, hcand]
    | obj fs =>
      rw [hc] at hcand
      simp only [Bool.not_eq_true'] at hcand
      simp [geminiParts, hasKey, hc, jGetD, hcand]
    | arr xs =>
      rcases xs with _ | ⟨c0, cs⟩
      · simp [geminiParts, hasKey, hc, jGetD, pyTruthy, jList]
      · rw [hc] at hcand
        rw [Bool.and_eq_true] at hcand
        obtain ⟨hc0, hcont⟩ := hcand
        rcases hco : jGet c0 "content" with _ | w
        · simp [geminiParts, hasKey, hc, hco, jGetD, pyTruthy, jIndex0]
        · cases w with
          | null => rw [hco] at hcont; simp at hcont
          | bool b => rw [hco] at hcont; simp at hcont
          | num m e => rw [hco] at hcont; simp at hcont
          | str s => rw [hco] at hcont; simp at hcont
          | arr ys => rw [hco] at hcont; simp at hcont
          | obj cf =>
            simp only [hco] at hcont
            rcases hpp : jGet (.obj cf) "parts" with _ | u
            · simp [geminiParts, hasKey, hc, hco, hpp, jGetD, pyTruthy, jIndex0]
            · cases u with
              | null => simp only [hpp] at hcont; exact Bool.noConfusion hcont
              | bool b => simp only [hpp] at hcont; exact Bool.noConfusion hcont
              | num m e => simp only [hpp] at hcont; exact Bool.noConfusion hcont
              | str s => simp only [hpp] at hcont; exact Bool.noConfusion hcont
              | obj gs => simp only [hpp] at hcont; exact Bool.noConfusion hcont
              | arr ps =>
                simp only [hpp] at hcont
                simp [geminiParts, hasKey, hc, hco, hpp, jGetD, pyTruthy, jIndex0, jList, hcont]

theorem geminiPartEvents_char (p : Json) (h : partWF p = true) :
    geminiPartEvents p =
      (if partText p = "" then []
       else if isThoughtPart p then [StreamEvent.thinking (.str (partText p))]
       else [StreamEvent.content (.str (partText p))]) := by
  have ht := thought_truthy p (Json.bool false) rfl h
  simp only [partWF, Bool.and_eq_true] at h
  obtain ⟨⟨hobj, hth⟩, htx⟩ := h
  have hie0 : ("" : String).isEmpty = true := rfl
  rcases hjt : jGet p "text" with _ | j
  · simp [geminiPartEvents, jGetD, hjt, pyTruthy, partText, jStrD, hie0]
  · cases j with
    | str s =>
      by_cases hs : s = ""
      · subst hs
        simp [geminiPartEvents, jGetD, hjt, pyTruthy, partText, jStrD, hie0]
      · have hie : s.isEmpty = false := by
          rw [← Bool.not_eq_true]
          simp [String.isEmpty_iff, hs]
        simp only [geminiPartEvents]
        rw [ht]
        by_cases hthp : isThoughtPart p
        · simp [jGetD, hjt, pyTruthy, partText, jStrD, hs, hie, hthp]
        · simp [jGetD, hjt, pyTruthy, partText, jStrD, hs, hie, hthp]
    | null => simp only [hjt] at htx; exact Bool.noConfusion htx
    | bool b => simp only [hjt] at htx; exact Bool.noConfusion htx
    | num m e => simp only [hjt] at htx; exact Bool.noConfusion htx
    | arr xs => simp only [hjt] at htx; exact Bool.noConfusion htx
    | obj fs => simp only [hjt] at htx; exact Bool.noConfusion htx

theorem decodeGemini_char (chunk : Json) (h : geminiShapeWF chunk = true) :
    decodeGeminiChunk chunk =
      ((geminiParts chunk).map (fun p =>
         if partText p = "" then []
         else if isThoughtPart p then [StreamEvent.thinking (.str (partText p))]
         else [StreamEvent.content (.str (partText p))])).flatten
      ++ geminiUsageEvents chunk := by
  have hparts := geminiShapeWF_parts chunk h
  rw [List.all_eq_true] at hparts
  unfold decodeGeminiChunk
  rw [foldlAppendEq, List.nil_append,
    List.map_congr_left (fun p hp => geminiPartEvents_char p (hparts p hp))]

theorem decodeOpenai_char (chunk : Json) (h : openaiShapeWF chunk = true) :
    decodeOpenaiChunk chunk =
      (if openaiDeltaText chunk = "" then []
       else [StreamEvent.content (.str (openaiDeltaText chunk))]) := by
  simp only [openaiShapeWF, Bool.and_eq_true] at h
  obtain ⟨hobj, hch⟩ := h
  have hie0 : ("" : String).isEmpty = true := rfl
  rcases hc : jGet chunk "choices" with _ | v
  · simp only [decodeOpenaiChunk, openaiDeltaText, hasKey, jGetD, hc, Option.getD_none,
      Option.isSome_none, jIndex0]
    simp [jGet, jStrD, hie0]
  · cases v with
    | arr xs =>
      rcases xs with _ | ⟨c0, cs⟩
      · simp only [decodeOpenaiChunk, openaiDeltaText, hasKey, jGetD, hc, Option.getD_some,
          Option.isSome_some, jIndex0, pyTruthy]
        simp [jGet, jStrD, hie0]
      · simp only [hc] at hch
        rw [Bool.and_eq_true] at hch
        obtain ⟨hc0, hdelta⟩ := hch
        rcases hd : jGet c0 "delta" with _ | w
        · simp only [decodeOpenaiChunk, openaiDeltaText, hasKey, jGetD, hc, Option.getD_some,
            Option.isSome_some, jIndex0, hd, Option.getD_none]
          simp [jGet, jStrD, pyTruthy, hie0]
        · cases w with
          | obj df =>
            simp only [hd] at hdelta
            rcases hcnt : jGet (.obj df) "content" with _ | u
            · simp only [decodeOpenaiChunk, openaiDeltaText, hasKey, jGetD, hc, Option.getD_some,
                Option.isSome_some, jIndex0, hd, hcnt, Option.getD_none]
              simp [jStrD, pyTruthy, hie0]
            · cases u with
              | str s =>
                by_cases hs : s = ""
                · subst hs
                  simp only [decodeOpenaiChunk, openaiDeltaText, hasKey, jGetD, hc,
                    Option.getD_some, Option.isSome_some, jIndex0, hd, hcnt]
                  simp [jStrD, pyTruthy, hie0]
                · have hie : s.isEmpty = false := by
                    rw [← Bool.not_eq_true]
                    simp [String.isEmpty_iff, hs]
                  simp only [decodeOpenaiChunk, openaiDeltaText, hasKey, jGetD, hc,
                    Option.getD_some, Option.isSome_some, jIndex0, hd, hcnt]
                  simp [jStrD, pyTruthy, hs, hie]
              | null =>
                simp only [decodeOpenaiChunk, openaiDeltaText, hasKey, jGetD, hc,
                  Option.getD_some, Option.isSome_some, jIndex0, hd, hcnt]
                simp [jStrD, pyTruthy, hie0]
              | bool b => simp only [hcnt] at hdelta; exact Bool.noConfusion hdelta
              | num m e => simp only [hcnt] at hdelta; exact Bool.noConfusion hdelta
              | arr ys => simp only [hcnt] at hdelta; exact Bool.noConfusion hdelta
              | obj gs => simp only [hcnt] at hdelta; exact Bool.noConfusion hdelta
          | null => simp only [hd] at hdelta; exact Bool.noConfusion hdelta
          | bool b => simp only [hd] at hdelta; exact Bool.noConfusion hdelta
          | num m e => simp only [hd] at hdelta; exact Bool.noConfusion hdelta
          | str s => simp only [hd] at hdelta; exact Bool.noConfusion hdelta
          | arr ys => simp only [hd] at hdelta; exact Bool.noConfusion hdelta
    | null =>
      simp only [decodeOpenaiChunk, openaiDeltaText, hasKey, jGetD, hc, Option.getD_some,
        Option.isSome_some, jIndex0, pyTruthy]
      simp [jGet, jStrD, hie0]
    | bool b =>
      simp only [hc, Bool.not_eq_true'] at hch
      cases b
      · simp only [decodeOpenaiChunk, openaiDeltaText, hasKey, jGetD, hc, Option.getD_some,
          Option.isSome_some, jIndex0, pyTruthy]
        simp [jGet, jStrD, hie0]
      · simp [pyTruthy] at hch
    | num m e =>
      simp only [hc, Bool.not_eq_true'] at hch
      simp only [decodeOpenaiChunk, openaiDeltaText, hasKey, jGetD, hc, Option.getD_some,
        Option.isSome_some, jIndex0, hch]
      simp [jGet, jStrD, hie0]
    | str s =>
      simp only [hc, Bool.not_eq_true'] at hch
      simp only [decodeOpenaiChunk, openaiDeltaText, hasKey, jGetD, hc, Option.getD_some,
        Option.isSome_some, jIndex0, hch]
      simp [jGet, jStrD, hie0]
    | obj fs =>
      simp only [hc, Bool.not_eq_true'] at hch
      simp only [decodeOpenaiChunk, openaiDeltaText, hasKey, jGetD, hc, Option.getD_some,
        Option.isSome_some, jIndex0, hch]
      simp [jGet, jStrD, hie0]

/-! ## Claims -/

/-- Claim C1, counterexample: with upstream lines carrying one content
delta and then the `[DONE]` sentinel, `stream_openai` emits the content
event AND a final `Done` event.  The claim states that no `Done` event is
emitted after the sentinel and that the sequence ends with whatever was
emitted before `[DONE]`; the produced sequence `[Content "Hi", Done]`
refutes that. -/
theorem claim_C1_counterexample :
    streamOpenai 200 ""
      ["data: \x7b\"choices\":[\x7b\"delta\":\x7b\"content\":\"Hi\"\x7d\x7d]\x7d",
       "data: [DONE]",
       "data: \x7b\"choices\":[\x7b\"delta\":\x7b\"content\":\"ignored\"\x7d\x7d]\x7d"] =
      [.content (.str "Hi"), .done] := rfl

/-- Claim C1 (amended): when an upstream line's payload is exactly `[DONE]`,
the relay stops reading: no line after the sentinel contributes any event
(the result does not depend on `post`); but the relay then falls through to
the final `yield` and emits a terminating `Done` event. -/
theorem claim_C1_amended (e : String) (pre post : List String) :
    streamOpenai 200 e (pre ++ "data: [DONE]" :: post) =
      openaiProcessLines pre ++ [StreamEvent.done] := by
  simp [streamOpenai, openaiProcessLines_append_done]

/-- Claim C3: for either provider, a non-200 initial upstream status makes
the relay emit exactly one `Error` event carrying the upstream error body,
with no `Done` after it (the event sequence is the singleton). -/
theorem claim_C3 (status : Nat) (body : String) (lines : List String) (h : status ≠ 200) :
    streamGemini status body lines = [.error body] ∧
    streamOpenai status body lines = [.error body] := by
  simp [streamGemini, streamOpenai, h]

/-- Witness for C3 at the spec's example: status 500 with body
`"server error"`. -/
theorem claim_C3_witness :
    streamGemini 500 "server error" ["data: ignored"] = [.error "server error"] ∧
    streamOpenai 500 "server error" ["data: ignored"] = [.error "server error"] :=
  claim_C3 500 "server error" ["data: ignored"] (by decide)

/-- Claim C4: a provider that lowercases to neither "gemini" nor "openai"
makes `chat` raise the 400 `HTTPException` (no upstream call is reached:
the result is `httpError`, not `upstream`), and makes `chat_stream`'s
generator yield exactly one error event, whatever the inner relays would
have produced. -/
theorem claim_C4 (cfg : Config) (req : ChatRequest)
    (h1 : pyLower req.provider ≠ "gemini") (h2 : pyLower req.provider ≠ "openai") :
    chat cfg req = .httpError 400 ("不支持的供应商: " ++ req.provider) ∧
    ∀ geminiEvents openaiEvents,
      chatStream cfg req geminiEvents openaiEvents =
        [.error ("不支持的供应商: " ++ req.provider)] := by
  refine ⟨?_, fun ge oe => ?_⟩ <;> simp [chat, chatStream, h1, h2]

/-- Witness for C4 with provider "Claude" (mixed case). -/
theorem claim_C4_witness :
    chat ⟨"k1", "k2"⟩ ⟨"Claude", none, [], 0.7, 4096, false, false, false⟩ =
      .httpError 400 ("不支持的供应商: " ++ "Claude") ∧
    chatStream ⟨"k1", "k2"⟩ ⟨"Claude", none, [], 0.7, 4096, false, false, false⟩
        [.done] [.done] = [.error ("不支持的供应商: " ++ "Claude")] := by
  have h := claim_C4 ⟨"k1", "k2"⟩ ⟨"Claude", none, [], 0.7, 4096, false, false, false⟩
    (by intro h; exact absurd h (by decide)) (by intro h; exact absurd h (by decide))
  exact ⟨h.1, h.2 [.done] [.done]⟩

/-- Claim C5: for a supported provider whose configured API key is the
empty string, `chat` raises the 500 `HTTPException` before any upstream
call, and `chat_stream`'s generator yields exactly one error event. -/
theorem claim_C5 (cfg : Config) (req : ChatRequest) :
    (pyLower req.provider = "gemini" → cfg.GEMINI_API_KEY = "" →
      chat cfg req = .httpError 500 "Gemini API Key 未配置" ∧
      ∀ geminiEvents openaiEvents,
        chatStream cfg req geminiEvents openaiEvents = [.error "Gemini API Key 未配置"]) ∧
    (pyLower req.provider = "openai" → cfg.OPENAI_API_KEY = "" →
      chat cfg req = .httpError 500 "OpenAI API Key 未配置" ∧
      ∀ geminiEvents openaiEvents,
        chatStream cfg req geminiEvents openaiEvents = [.error "OpenAI API Key 未配置"]) := by
  constructor <;> intro hp hk
  · exact ⟨by simp [chat, hp, hk], fun ge oe => by simp [chatStream, hp, hk]⟩
  · exact ⟨by simp [chat, hp, hk], fun ge oe => by simp [chatStream, hp, hk]⟩

/-- Witness for C5: both providers with an empty configured key. -/
theorem claim_C5_witness :
    chat ⟨"", "k2"⟩ ⟨"gemini", none, [], 0.7, 4096, false, false, false⟩ =
      .httpError 500 "Gemini API Key 未配置" ∧
    chat ⟨"k1", ""⟩ ⟨"OpenAI", none, [], 0.7, 4096, false, false, false⟩ =
      .httpError 500 "OpenAI API Key 未配置" :=
  ⟨((claim_C5 ⟨"", "k2"⟩ ⟨"gemini", none, [], 0.7, 4096, false, false, false⟩).1 rfl rfl).1,
   ((claim_C5 ⟨"k1", ""⟩ ⟨"OpenAI", none, [], 0.7, 4096, false, false, false⟩).2 rfl rfl).1⟩

/-- Claim C7: for every message of a Gemini request, role "user" maps to
wire role "user" and every other role maps to "model"; the mapping is
idempotent; and the built `contents` entry carries exactly that wire role. -/
theorem claim_C7 (m : Message) :
    (m.role = "user" → geminiRole m.role = "user") ∧
    (m.role ≠ "user" → geminiRole m.role = "model") ∧
    geminiRole (geminiRole m.role) = geminiRole m.role ∧
    geminiContents [m] = [(geminiRole m.role, m.content)] := by
  refine ⟨fun h => by simp [geminiRole, h], fun h => by simp [geminiRole, h], ?_, rfl⟩
  by_cases h : m.role = "user" <;> simp [geminiRole, h]

/-- Witness for C7 at role "assistant". -/
theorem claim_C7_witness :
    geminiRole "assistant" = "model" ∧
    geminiRole (geminiRole "assistant") = geminiRole "assistant" :=
  ⟨(claim_C7 ⟨"assistant", "hi"⟩).2.1 (by decide),
   (claim_C7 ⟨"assistant", "hi"⟩).2.2.1⟩

/-- Claim C6: `call_gemini`'s response parsing routes each part's text by
its `thought` flag (content gets the non-thought texts in order,
`thinking_content` starts absent and becomes present exactly when a
thought part occurs, collecting the thought texts in order); usage is
mapped from `usageMetadata`'s three token counts exactly when
`usageMetadata` is present; absent `candidates` gives empty content; and
the spec's two-part example parses to content "B", thinking "A". -/
theorem claim_C6 :
    (∀ data : Json, geminiShapeWF data = true →
      (callGeminiParse data).content =
          concatMap partText ((geminiParts data).filter (fun p => !isThoughtPart p)) ∧
      (callGeminiParse data).thinking_content =
          (if (geminiParts data).any isThoughtPart then
             some (concatMap partText ((geminiParts data).filter isThoughtPart))
           else none) ∧
      (hasKey data "usageMetadata" = true →
        (callGeminiParse data).usage =
          some (jGetD (jGetD data "usageMetadata" .null) "promptTokenCount" (.num 0 0),
                jGetD (jGetD data "usageMetadata" .null) "candidatesTokenCount" (.num 0 0),
                jGetD (jGetD data "usageMetadata" .null) "totalTokenCount" (.num 0 0))) ∧
      (hasKey data "usageMetadata" = false → (callGeminiParse data).usage = none) ∧
      (hasKey data "candidates" = false →
        (callGeminiParse data).content = "" ∧
        (callGeminiParse data).thinking_content = none)) ∧
    callGeminiParse c6ExampleJson = ⟨"B", some "A", none⟩ := by
  constructor
  · intro data h
    have hparts := geminiShapeWF_parts data h
    have hfold := callGeminiFoldInv (geminiParts data) hparts "" none
    refine ⟨?_, ?_, ?_, ?_, ?_⟩
    · show ((geminiParts data).foldl callGeminiStep ("", none)).1 = _
      rw [hfold]
      simp
    · show ((geminiParts data).foldl callGeminiStep ("", none)).2 = _
      rw [hfold]
      by_cases hany : (geminiParts data).any isThoughtPart <;> simp [hany]
    · intro hu
      simp [callGeminiParse, hu]
    · intro hu
      simp [callGeminiParse, hu]
    · intro hcand
      have hnil : geminiParts data = [] := by
        simp [geminiParts, hcand]
      constructor
      · show ((geminiParts data).foldl callGeminiStep ("", none)).1 = _
        rw [hnil]
        rfl
      · show ((geminiParts data).foldl callGeminiStep ("", none)).2 = _
        rw [hnil]
        rfl
  · rfl

/-- Witness for C6 at the Gemini chunk `gchunkExample` (thought part "T",
content part "C", empty-text part, usage metadata). -/
theorem claim_C6_witness :
    (callGeminiParse gchunkExample).content = "C" ∧
    (callGeminiParse gchunkExample).thinking_content = some "T" ∧
    (callGeminiParse gchunkExample).usage =
      some (Json.num 5 0, Json.num 7 0, Json.num 12 0) := by
  obtain ⟨hc, ht, hu, -, -⟩ := claim_C6.1 gchunkExample rfl
  exact ⟨hc.trans rfl, ht.trans rfl, (hu rfl).trans rfl⟩

/-- Claim C2, counterexample: an OpenAI streaming chunk that carries usage
metadata (keys `usage` and `usageMetadata`) produces NO event at all: the
OpenAI decode path never emits a `Usage` event, contradicting the claim's
"a Usage event whenever that chunk contains usage metadata (either
provider)". -/
theorem claim_C2_counterexample :
    decodeOpenaiChunk ochunkUsageOnly = [] ∧
    hasKey ochunkUsageOnly "usage" = true ∧
    hasKey ochunkUsageOnly "usageMetadata" = true :=
  ⟨rfl, rfl, rfl⟩

/-- Claim C2 (amended): for every JSON-decodable chunk, the Gemini decode
step emits, in part order, one `Content` event per non-thought part with
non-empty text and one `Thinking` event per thought-flagged part with
non-empty text (empty text gives no event), followed by one `Usage` event
carrying the chunk's reported token counts exactly when the chunk has
`usageMetadata`; the OpenAI decode step emits only a single `Content`
event when the first choice's delta content is non-empty and nothing else
— in particular it never emits a `Usage` event. -/
theorem claim_C2_amended :
    (∀ chunk : Json, geminiShapeWF chunk = true →
      decodeGeminiChunk chunk =
        ((geminiParts chunk).map (fun p =>
           if partText p = "" then []
           else if isThoughtPart p then [StreamEvent.thinking (.str (partText p))]
           else [StreamEvent.content (.str (partText p))])).flatten
        ++ (if hasKey chunk "usageMetadata" = true then
              [StreamEvent.usage
                (jGetD (jGetD chunk "usageMetadata" .null) "promptTokenCount" (.num 0 0))
                (jGetD (jGetD chunk "usageMetadata" .null) "candidatesTokenCount" (.num 0 0))
                (jGetD (jGetD chunk "usageMetadata" .null) "totalTokenCount" (.num 0 0))]
            else [])) ∧
    (∀ chunk : Json, openaiShapeWF chunk = true →
      decodeOpenaiChunk chunk =
        (if openaiDeltaText chunk = "" then []
         else [StreamEvent.content (.str (openaiDeltaText chunk))])) := by
  constructor
  · intro chunk h
    rw [decodeGemini_char chunk h]
    by_cases hu : hasKey chunk "usageMetadata" <;> simp [geminiUsageEvents, hu]
  · exact decodeOpenai_char

/-- Witness for C2 at `gchunkExample` / `ochunkExample`: the Gemini chunk
yields Thinking "T", Content "C" (nothing for the empty-text part) and
then the Usage event; the OpenAI chunk yields Content "Hi". -/
theorem claim_C2_witness :
    decodeGeminiChunk gchunkExample =
      [.thinking (.str "T"), .content (.str "C"),
       .usage (Json.num 5 0) (Json.num 7 0) (Json.num 12 0)] ∧
    decodeOpenaiChunk ochunkExample = [.content (.str "Hi")] :=
  ⟨(claim_C2_amended.1 gchunkExample rfl).trans rfl,
   (claim_C2_amended.2 ochunkExample rfl).trans rfl⟩

/-- Claim C10: the events of one decoded Gemini chunk are the per-part
events flattened in the order the parts appear, with the chunk's `Usage`
event (when `usageMetadata` is present) emitted after all part-derived
events — and no `Usage` event when it is absent. -/
theorem claim_C10 (chunk : Json) (_hwf : geminiShapeWF chunk = true) :
    decodeGeminiChunk chunk =
      ((geminiParts chunk).map geminiPartEvents).flatten ++ geminiUsageEvents chunk ∧
    (hasKey chunk "usageMetadata" = true →
      decodeGeminiChunk chunk =
        ((geminiParts chunk).map geminiPartEvents).flatten ++
          [.usage (jGetD (jGetD chunk "usageMetadata" .null) "promptTokenCount" (.num 0 0))
                  (jGetD (jGetD chunk "usageMetadata" .null) "candidatesTokenCount" (.num 0 0))
                  (jGetD (jGetD chunk "usageMetadata" .null) "totalTokenCount" (.num 0 0))]) ∧
    (hasKey chunk "usageMetadata" = false →
      decodeGeminiChunk chunk = ((geminiParts chunk).map geminiPartEvents).flatten) := by
  have hbase : decodeGeminiChunk chunk =
      ((geminiParts chunk).map geminiPartEvents).flatten ++ geminiUsageEvents chunk := by
    unfold decodeGeminiChunk
    rw [foldlAppendEq, List.nil_append]
  refine ⟨hbase, fun hu => ?_, fun hu => ?_⟩
  · rw [hbase]
    simp [geminiUsageEvents, hu]
  · rw [hbase]
    simp [geminiUsageEvents, hu]

/-- Witness for C10 at `gchunkExample`. -/
theorem claim_C10_witness :
    decodeGeminiChunk gchunkExample =
      ((geminiParts gchunkExample).map geminiPartEvents).flatten ++
        geminiUsageEvents gchunkExample ∧
    decodeGeminiChunk gchunkExample =
      ((geminiParts gchunkExample).map geminiPartEvents).flatten ++
        [.usage (Json.num 5 0) (Json.num 7 0) (Json.num 12 0)] :=
  ⟨(claim_C10 gchunkExample rfl).1,
   ((claim_C10 gchunkExample rfl).2.1 rfl).trans rfl⟩

/-- Claim C8: a `data: `-prefixed line whose payload fails JSON decoding
(and, on the OpenAI path, is not `[DONE]`) contributes no event and does
not terminate the relay: removing it from the line sequence leaves the
produced events unchanged, so the surrounding valid lines' events appear
in their original order with no interposed `Error` event. -/
theorem claim_C8 (pre post : List String) (bad : String)
    (hs : pyStartsWith bad "data: " = true)
    (hj : parseJson (bad.drop 6) = none) :
    geminiLineEvents bad = [] ∧
    geminiRelayLines (pre ++ bad :: post) = geminiRelayLines (pre ++ post) ∧
    (bad.drop 6 ≠ "[DONE]" →
      openaiProcessLines (pre ++ bad :: post) = openaiProcessLines (pre ++ post)) := by
  have hbad : geminiLineEvents bad = [] := by
    simp [geminiLineEvents, hs, hj]
  refine ⟨hbad, ?_, ?_⟩
  · unfold geminiRelayLines
    rw [foldlAppendEq, foldlAppendEq]
    simp [hbad]
  · intro hnd
    induction pre with
    | nil =>
      simp only [List.nil_append, openaiProcessLines, hs, if_true, ite_true, hj, hnd]
      simp [hnd]
    | cons l pre ih =>
      simp only [List.cons_append, openaiProcessLines, List.append_eq]
      split
      · split
        · rfl
        · rw [ih]
      · exact ih

/-- Witness for C8: a malformed line `data: \x7bnot json` between two valid
lines is skipped on both paths. -/
theorem claim_C8_witness :
    geminiLineEvents "data: \x7bnot json" = [] ∧
    openaiProcessLines
        ["data: \x7b\"choices\":[\x7b\"delta\":\x7b\"content\":\"A\"\x7d\x7d]\x7d",
         "data: \x7bnot json",
         "data: \x7b\"choices\":[\x7b\"delta\":\x7b\"content\":\"B\"\x7d\x7d]\x7d"] =
      openaiProcessLines
        ["data: \x7b\"choices\":[\x7b\"delta\":\x7b\"content\":\"A\"\x7d\x7d]\x7d",
         "data: \x7b\"choices\":[\x7b\"delta\":\x7b\"content\":\"B\"\x7d\x7d]\x7d"] := by
  have h := claim_C8
    ["data: \x7b\"choices\":[\x7b\"delta\":\x7b\"content\":\"A\"\x7d\x7d]\x7d"]
    ["data: \x7b\"choices\":[\x7b\"delta\":\x7b\"content\":\"B\"\x7d\x7d]\x7d"]
    "data: \x7bnot json" rfl rfl
  exact ⟨h.1, h.2.2 (by decide)⟩

/-- Claim C9: the terminal error frame is the literal concatenation
`data: \x7b"error": "` + body + `"\x7d` + blank line, with no JSON string
escaping applied to the body; consequently, whenever the body contains a
double quote, a backslash, or a newline, the frame's payload does not
parse to a JSON value whose "error" field equals the body (for any parse
result `j`, `j`'s "error" field differs from the body). -/
theorem claim_C9 (b : String)
    (hb : '"' ∈ b.data ∨ '\\' ∈ b.data ∨ '\n' ∈ b.data) :
    errorFrame b = "data: " ++ errorFramePayload b ++ "\n\n" ∧
    errorFramePayload b = "\x7b\"error\": \"" ++ b ++ "\"\x7d" ∧
    ∀ j, parseJson (errorFramePayload b) = some j →
      jGet j "error" ≠ some (Json.str b) := by
  refine ⟨?_, rfl, ?_⟩
  · have e1 : ("data: " ++ "\x7b\"error\": \"" : String) = "data: \x7b\"error\": \"" := rfl
    have e2 : ("\"\x7d" ++ "\n\n" : String) = "\"\x7d\n\n" := rfl
    rw [errorFrame, errorFramePayload, ← e1, ← e2]
    simp only [String.append_assoc]
  · intro j hp hget
    have hdata : (errorFramePayload b).data =
        '{' :: '"' :: 'e' :: 'r' :: 'r' :: 'o' :: 'r' :: '"' :: ':' :: ' ' :: '"' ::
          (b.data ++ ['"', '}']) := by
      rw [errorFramePayload, String.data_append, String.data_append, List.append_assoc]
      rfl
    have hlen : (errorFramePayload b).data.length = b.data.length + 13 := by
      rw [hdata]
      simp [List.length_append]
    have hskip : skipWs (errorFramePayload b).data = (errorFramePayload b).data := by
      rw [hdata]
      rfl
    rw [parseJson.eq_def, hskip, hlen, hdata] at hp
    have step1 : parseValue (b.data.length + 13 + 1)
        ('{' :: '"' :: 'e' :: 'r' :: 'r' :: 'o' :: 'r' :: '"' :: ':' :: ' ' :: '"' ::
          (b.data ++ ['"', '}'])) =
        parseMembers (b.data.length + 13)
          ('"' :: 'e' :: 'r' :: 'r' :: 'o' :: 'r' :: '"' :: ':' :: ' ' :: '"' ::
            (b.data ++ ['"', '}'])) [] := by
      rw [parseValue_succ]
      rfl
    rw [step1] at hp
    have hf13 : b.data.length + 13 = (b.data.length + 12) + 1 := by omega
    rw [hf13] at hp
    rw [parseMembers_succ] at hp
    have hkey : parseStringBody ('e' :: 'r' :: 'r' :: 'o' :: 'r' :: '"' :: ':' :: ' ' :: '"' ::
        (b.data ++ ['"', '}'])) =
        some (['e', 'r', 'r', 'o', 'r'], ':' :: ' ' :: '"' :: (b.data ++ ['"', '}'])) :=
      parseStringBody_plain ['e', 'r', 'r', 'o', 'r']
        (':' :: ' ' :: '"' :: (b.data ++ ['"', '}'])) (by decide)
    have hsw2 : skipWs (':' :: ' ' :: '"' :: (b.data ++ ['"', '}'])) =
        ':' :: ' ' :: '"' :: (b.data ++ ['"', '}']) := rfl
    have hsw3 : skipWs (' ' :: '"' :: (b.data ++ ['"', '}'])) =
        '"' :: (b.data ++ ['"', '}']) := rfl
    have hv : parseValue (b.data.length + 12) ('"' :: (b.data ++ ['"', '}'])) =
        (parseStringBody (b.data ++ ['"', '}'])).map
          (fun p => (Json.str (String.mk p.1), p.2)) := rfl
    have hmk : String.mk ['e', 'r', 'r', 'o', 'r'] = "error" := rfl
    rcases hpsb : parseStringBody (b.data ++ ['"', '}']) with _ | ⟨s, r4⟩
    · rw [hpsb] at hv
      simp only [Option.map_none'] at hv
      simp only [hkey, hsw2, hsw3, hv] at hp
      exact Option.noConfusion hp
    · rw [hpsb] at hv
      simp only [Option.map_some'] at hv
      simp only [hkey, hsw2, hsw3, hv, hmk, List.nil_append] at hp
      obtain ⟨enc, henc, hslen, hnl, hstrict⟩ := parseStringBody_spec _ _ _ hpsb
      have hlens : enc.length + 1 + r4.length = b.data.length + 2 := by
        have := congrArg List.length henc
        simp only [List.length_append, List.length_cons, List.length_nil] at this
        omega
      rcases hswc : skipWs r4 with _ | ⟨c4, r5⟩
      · rw [hswc] at hp
        simp only [] at hp
        exact Option.noConfusion hp
      · have hr4ne : r4 ≠ [] := skipWs_eq_cons_ne_nil hswc
        have hr4len : 1 ≤ r4.length := by
          cases r4 with
          | nil => exact absurd rfl hr4ne
          | cons a t => simp
        have hswlen : (skipWs r4).length ≤ r4.length := skipWs_length r4
        have hswlen2 : (skipWs r4).length = r5.length + 1 := by rw [hswc]; rfl
        by_cases h4a : c4 = ','
        · subst h4a
          rw [hswc] at hp
          simp only [] at hp
          rcases hpm : parseMembers (b.data.length + 12) (skipWs r5)
              [("error", Json.str (String.mk s))] with _ | ⟨v2, rest2⟩
          · rw [hpm] at hp
            exact Option.noConfusion hp
          · rw [hpm] at hp
            simp only [] at hp
            split at hp
            · simp only [Option.some.injEq] at hp
              subst hp
              obtain ⟨fs, hfs, hkv⟩ := parseMembers_strings _ _ _ _ _ hpm
              subst hfs
              have hmem := jGet_mem hget
              rcases hkv _ hmem with hin | hbound
              · simp only [List.mem_singleton, Prod.mk.injEq] at hin
                obtain ⟨-, hin2⟩ := hin
                have hs' : b = String.mk s := by injection hin2
                have hsb : s = b.data := by rw [hs']
                have hslen2 : s.length = b.data.length := by rw [hsb]
                have hr41 : r4.length = 1 := by omega
                have henc2 : enc.length = b.data.length := by omega
                obtain ⟨-, htail⟩ := List.append_inj henc.symm (by simpa using henc2)
                have hr4val : r4 = ['}'] := by
                  have := htail
                  simp only [List.cons.injEq] at this
                  exact this.2
                rw [hr4val] at hswc
                have : skipWs ['}'] = ['}'] := rfl
                rw [this] at hswc
                simp only [List.cons.injEq] at hswc
                exact absurd hswc.1 (by decide)
              · have hblen := hbound b rfl
                have hb1 : b.length = b.data.length := rfl
                have hswr5 := skipWs_length r5
                omega
            · exact Option.noConfusion hp
        · by_cases h4b : c4 = '}'
          · subst h4b
            rw [hswc] at hp
            simp only [] at hp
            split at hp
            · simp only [Option.some.injEq] at hp
              subst hp
              have hj : jGet (Json.obj [("error", Json.str (String.mk s))]) "error" =
                  some (Json.str (String.mk s)) := rfl
              rw [hj, Option.some.injEq] at hget
              have hs' : String.mk s = b := by injection hget
              have hsb : s = b.data := by rw [← hs']
              have hslen2 : s.length = b.data.length := by rw [hsb]
              have hr41 : r4.length = 1 := by omega
              have henc2 : enc.length = b.data.length := by omega
              obtain ⟨hheadeq, -⟩ := List.append_inj henc.symm (by simpa using henc2)
              have hencb : enc = b.data := hheadeq
              have hnostrict : ¬('\\' ∈ enc ∨ '"' ∈ enc) := by
                intro hcon
                have := hstrict hcon
                omega
              rw [hencb] at hnostrict hnl
              rcases hb with hq | hbs | hnlb
              · exact hnostrict (Or.inr hq)
              · exact hnostrict (Or.inl hbs)
              · exact hnl hnlb
            · exact Option.noConfusion hp
          · rw [hswc] at hp
            split at hp
            · rename_i v2 r5' heq5
              split at heq5
              · rename_i r6 heq6
                rw [List.cons.injEq] at heq6
                exact absurd heq6.1 h4a
              · rename_i r6 heq6
                rw [List.cons.injEq] at heq6
                exact absurd heq6.1 h4b
              · exact Option.noConfusion heq5
            · exact Option.noConfusion hp

/-- Witness for C9 at a body containing a double quote: the frame is the
unescaped literal concatenation. -/
theorem claim_C9_witness :
    errorFrame "x\"y" = "data: " ++ errorFramePayload "x\"y" ++ "\n\n" ∧
    errorFramePayload "x\"y" = "\x7b\"error\": \"" ++ "x\"y" ++ "\"\x7d" :=
  ⟨(claim_C9 "x\"y" (by decide)).1, (claim_C9 "x\"y" (by decide)).2.1⟩

end HaruChat
